import Mathlib

set_option maxRecDepth 100000

/-!
Verification of the lexical scanner and HTML renderer of
pretty-printer.go (package main).

The Go program indexes its input string byte by byte; we model the input
as a list of characters, each standing for one byte (code point below
256).  Go operations that can panic at runtime — indexing past the end
of the string, or slicing `s[a:b]` with `b` beyond the length — are
modelled by returning `none`, so `scan` produces an
`Option (List Token)` where `none` means the Go program panics.  The
scanner's loops are modelled with an explicit fuel argument that is one
more than the number of remaining characters; every loop iteration
advances the index by at least one, and the fuel-independence lemmas
below show that `none` results come from the modelled panics, never
from fuel running out.
-/

/-- Token kinds, from the iota constant block of pretty-printer.go. -/
inductive Kind where
  | LEFT_BRACE
  | RIGHT_BRACE
  | LEFT_BRACKET
  | RIGHT_BRACKET
  | COLON
  | OBJECT_COMMA
  | ARRAY_COMMA
  | TRUE
  | FALSE
  | NULL
  | STRING
  | ESCAPE
  | NUMBER
  | LETTER
  | UNKNOWN
  deriving DecidableEq

/-- A scanner token: a kind together with the raw source slice that
produced it (pretty-printer.go, type Token). -/
structure Token where
  kind : Kind
  lexeme : List Char
  deriving DecidableEq

/-- Go's `unicode.IsDigit(rune(b))` for a single byte `b`: the only
decimal digits with code point below 256 are '0'..'9'. -/
def goIsDigit (c : Char) : Bool := 48 ≤ c.toNat && c.toNat ≤ 57

/-- Go's `unicode.IsLetter(rune(b))` for a single byte `b`: the Latin-1
letters (ASCII letters, ª, µ, º, and the accented ranges À–Ö, Ø–ö,
ø–ÿ). -/
def goIsLetter (c : Char) : Bool :=
  (65 ≤ c.toNat && c.toNat ≤ 90) || (97 ≤ c.toNat && c.toNat ≤ 122) ||
  c.toNat == 170 || c.toNat == 181 || c.toNat == 186 ||
  (192 ≤ c.toNat && c.toNat ≤ 214) || (216 ≤ c.toNat && c.toNat ≤ 246) ||
  (248 ≤ c.toNat && c.toNat ≤ 255)

/-- isValidNumberCode from pretty-printer.go. -/
def isValidNumberCode (c : Char) : Bool :=
  goIsDigit c || (c == '.' || c == 'e' || c == 'E' || c == '-' || c == '+')

/-- The value of the Go slice expression `s[a:b]` when it is in bounds.
Callers perform the bounds checks that decide whether the Go program
panics instead. -/
def goSlice (s : List Char) (a b : Nat) : List Char := (s.take b).drop a

/-- The inner string loop of `scan` (pretty-printer.go lines 127–153):
entered after an opening quote, with `start` pointing at that quote.
It returns the tokens appended inside the loop together with the index
just past the closing quote.  `none` models the two runtime panics of
the Go code: reading `s[i]` when a backslash is the last character, and
slicing past the end (a `\u` escape with fewer than four characters
after the `u`, or an unterminated string, whose final
`s[start:i]` flush runs with `i = len(s)+1`). -/
def stringLoop : Nat → List Char → Nat → Nat → Option (List Token × Nat)
  | 0, _, _, _ => none
  | fuel+1, s, i, start =>
    if h : i < s.length then
      if s[i] = '"' then
        some ([⟨Kind.STRING, goSlice s start (i+1)⟩], i+1)
      else if s[i] = '\\' then
        if h2 : i+1 < s.length then
          if s[i+1] = 'u' then
            if i+6 ≤ s.length then
              (fun p => (⟨Kind.STRING, goSlice s start i⟩ ::
                         ⟨Kind.ESCAPE, goSlice s i (i+6)⟩ :: p.1, p.2)) <$>
                stringLoop fuel s (i+6) (i+6)
            else none
          else
            (fun p => (⟨Kind.STRING, goSlice s start i⟩ ::
                       ⟨Kind.ESCAPE, goSlice s i (i+2)⟩ :: p.1, p.2)) <$>
              stringLoop fuel s (i+2) (i+2)
        else none
      else stringLoop fuel s (i+1) start
    else none

/-- The letter-run loop of `scan` (pretty-printer.go lines 176–178):
`for i < n && unicode.IsLetter(rune(s[i])) { i++ }`.  The fuel passed
by `scanFrom` is the number of remaining characters, which bounds the
iteration count. -/
def letterRun : Nat → List Char → Nat → Nat
  | 0, _, i => i
  | fuel+1, s, i =>
    if h : i < s.length then
      if goIsLetter s[i] then letterRun fuel s (i+1) else i
    else i

/-- The number loop of `scan` (pretty-printer.go lines 183–185):
`for i < n && isValidNumberCode(s[i]) { i++ }`. -/
def numberRun : Nat → List Char → Nat → Nat
  | 0, _, i => i
  | fuel+1, s, i =>
    if h : i < s.length then
      if isValidNumberCode s[i] then numberRun fuel s (i+1) else i
    else i

/-- The main loop of `scan` (pretty-printer.go lines 97–194), from
index `i` with the given `insideArray` toggle.  The Go `switch` with
`fallthrough` in the letter case is modelled exactly: when the first
case (`i+3 < n` and the character is 't' or 'n') matches but the slice
is neither "true" nor "null", control falls into the body of the second
case without evaluating its `i+4 < n` guard, so the `s[i:i+5]`
comparison there is unguarded and panics (`none`) when `i+5 > n`. -/
def scanFrom : Nat → List Char → Nat → Bool → Option (List Token)
  | 0, _, _, _ => none
  | fuel+1, s, i, insideArray =>
    if h : i < s.length then
      if s[i] = ' ' then scanFrom fuel s (i+1) insideArray
      else if s[i] = '{' then
        (fun ts => ⟨Kind.LEFT_BRACE, ['{']⟩ :: ts) <$> scanFrom fuel s (i+1) insideArray
      else if s[i] = '}' then
        (fun ts => ⟨Kind.RIGHT_BRACE, ['}']⟩ :: ts) <$> scanFrom fuel s (i+1) insideArray
      else if s[i] = '[' then
        (fun ts => ⟨Kind.LEFT_BRACKET, ['[']⟩ :: ts) <$> scanFrom fuel s (i+1) (!insideArray)
      else if s[i] = ']' then
        (fun ts => ⟨Kind.RIGHT_BRACKET, [']']⟩ :: ts) <$> scanFrom fuel s (i+1) (!insideArray)
      else if s[i] = ',' then
        if !insideArray then
          (fun ts => ⟨Kind.OBJECT_COMMA, [',']⟩ :: ts) <$> scanFrom fuel s (i+1) insideArray
        else
          (fun ts => ⟨Kind.ARRAY_COMMA, [',']⟩ :: ts) <$> scanFrom fuel s (i+1) insideArray
      else if s[i] = ':' then
        (fun ts => ⟨Kind.COLON, [':']⟩ :: ts) <$> scanFrom fuel s (i+1) insideArray
      else if s[i] = '"' then
        (stringLoop fuel s (i+1) i).bind fun p =>
          (fun rest => p.1 ++ rest) <$> scanFrom fuel s p.2 insideArray
      else if goIsLetter s[i] then
        if i+3 < s.length ∧ (s[i] = 't' ∨ s[i] = 'n') then
          if goSlice s i (i+4) = ['t','r','u','e'] then
            (fun ts => ⟨Kind.TRUE, goSlice s i (i+4)⟩ :: ts) <$> scanFrom fuel s (i+4) insideArray
          else if goSlice s i (i+4) = ['n','u','l','l'] then
            (fun ts => ⟨Kind.NULL, goSlice s i (i+4)⟩ :: ts) <$> scanFrom fuel s (i+4) insideArray
          else if i+5 ≤ s.length then
            if goSlice s i (i+5) = ['f','a','l','s','e'] then
              (fun ts => ⟨Kind.FALSE, goSlice s i (i+5)⟩ :: ts) <$>
                scanFrom fuel s (i+5) insideArray
            else
              (fun ts => ⟨Kind.LETTER, goSlice s i (letterRun (s.length - i) s i)⟩ :: ts) <$>
                scanFrom fuel s (letterRun (s.length - i) s i) insideArray
          else none
        else if i+4 < s.length ∧ s[i] = 'f' then
          if goSlice s i (i+5) = ['f','a','l','s','e'] then
            (fun ts => ⟨Kind.FALSE, goSlice s i (i+5)⟩ :: ts) <$>
              scanFrom fuel s (i+5) insideArray
          else
            (fun ts => ⟨Kind.LETTER, goSlice s i (letterRun (s.length - i) s i)⟩ :: ts) <$>
              scanFrom fuel s (letterRun (s.length - i) s i) insideArray
        else
          (fun ts => ⟨Kind.LETTER, goSlice s i (letterRun (s.length - i) s i)⟩ :: ts) <$>
            scanFrom fuel s (letterRun (s.length - i) s i) insideArray
      else if s[i] = '-' ∨ goIsDigit s[i] then
        (fun ts => ⟨Kind.NUMBER, goSlice s i (numberRun (s.length - i) s i)⟩ :: ts) <$>
          scanFrom fuel s (numberRun (s.length - i) s i) insideArray
      else
        (fun ts => ⟨Kind.UNKNOWN, [s[i]]⟩ :: ts) <$> scanFrom fuel s (i+1) insideArray
    else some []

/-- `scan` from pretty-printer.go: tokenize the whole input.  The fuel
`length + 1` is enough for the whole loop, since every iteration
advances the index (fuel-independence is proved below). -/
def scan (s : List Char) : Option (List Token) := scanFrom (s.length + 1) s 0 false

/-- The color table `kindColor` of pretty-printer.go. -/
def kindColor : Kind → List Char
  | .LEFT_BRACE => "rgb(60, 63, 163)".toList
  | .RIGHT_BRACE => "rgb(60, 63, 163)".toList
  | .LEFT_BRACKET => "rgb(232, 71, 162)".toList
  | .RIGHT_BRACKET => "rgb(232, 71, 162)".toList
  | .COLON => "rgb(75, 193, 183)".toList
  | .OBJECT_COMMA => "rgb(255, 177, 76)".toList
  | .ARRAY_COMMA => "rgb(255, 177, 76)".toList
  | .TRUE => "rgb(198, 76, 255)".toList
  | .FALSE => "rgb(198, 76, 255)".toList
  | .NULL => "rgb(198, 76, 255)".toList
  | .STRING => "rgb(232, 6, 6)".toList
  | .ESCAPE => "rgb(71, 155, 85)".toList
  | .NUMBER => "rgb(76, 135, 255)".toList
  | .LETTER => "rgb(63, 79, 74)".toList
  | .UNKNOWN => "rgb(63, 79, 74)".toList

/-- printSpanTags from pretty-printer.go. -/
def printSpanTags (color lexeme : List Char) : List Char :=
  "<span style=\"color:".toList ++ color ++ "\">".toList ++ lexeme ++ "</span>".toList

/-- `num` repetitions of the two-space indentation unit. -/
def indentSpaces : Nat → List Char
  | 0 => []
  | k+1 => ' ' :: ' ' :: indentSpaces k

/-- printIndent from pretty-printer.go: the counting loop
`for i := 0; i < num; i++` over a Go int runs zero times when
`num ≤ 0`, which `Int.toNat` captures. -/
def printIndent (num : Int) : List Char := indentSpaces num.toNat

/-- The HTML escaping switch inside colorizedPrint's STRING case
(pretty-printer.go lines 228–241), applied to one character. -/
def htmlEscapeChar (c : Char) : List Char :=
  if c = '<' then "&lt;".toList
  else if c = '>' then "&gt;".toList
  else if c = '&' then "&amp;".toList
  else if c = '"' then "&quot;".toList
  else if c = '\'' then "&apos;".toList
  else [c]

/-- Concatenation of `f` over a character list (the renderer's
character-by-character STRING loop). -/
def concatMapChars (f : Char → List Char) : List Char → List Char
  | [] => []
  | c :: cs => f c ++ concatMapChars f cs

/-- One iteration of colorizedPrint's per-token switch
(pretty-printer.go lines 200–247): the updated braceCount and the
characters printed for this token. -/
def renderToken (braceCount : Int) (t : Token) : Int × List Char :=
  match t.kind with
  | .LEFT_BRACE =>
      (braceCount + 1,
        ['\n'] ++ printIndent braceCount ++
          printSpanTags (kindColor t.kind) t.lexeme ++
          ['\n'] ++ printIndent (braceCount + 1))
  | .RIGHT_BRACE =>
      (braceCount - 1,
        ['\n'] ++ printIndent (braceCount - 1) ++
          printSpanTags (kindColor t.kind) t.lexeme ++
          ['\n'] ++ printIndent (braceCount - 1))
  | .COLON =>
      (braceCount, [' '] ++ printSpanTags (kindColor t.kind) t.lexeme ++ [' '])
  | .OBJECT_COMMA =>
      (braceCount,
        printSpanTags (kindColor t.kind) t.lexeme ++ ['\n'] ++ printIndent braceCount)
  | .ARRAY_COMMA =>
      (braceCount, printSpanTags (kindColor t.kind) t.lexeme ++ [' '])
  | .STRING =>
      (braceCount,
        concatMapChars (fun c => printSpanTags (kindColor t.kind) (htmlEscapeChar c)) t.lexeme)
  | .UNKNOWN => (braceCount, [])
  | _ => (braceCount, printSpanTags (kindColor t.kind) t.lexeme)

/-- The fold of renderToken over the token list, threading braceCount. -/
def renderTokens : Int → List Token → List Char
  | _, [] => []
  | bc, t :: ts => (renderToken bc t).2 ++ renderTokens (renderToken bc t).1 ts

/-- colorizedPrint from pretty-printer.go: the container span wrapping
the rendered tokens, starting from braceCount 0. -/
def colorizedPrint (tokens : List Token) : List Char :=
  "<span style=\"font-family:monospace; white-space:pre\">".toList ++
    (renderTokens 0 tokens ++ "</span>".toList)

/-- The braceCount reached after rendering a token list, starting at 0. -/
def depthAfter (tokens : List Token) : Int :=
  tokens.foldl (fun bc t => (renderToken bc t).1) 0

/-- Concatenation of the lexemes of a token list, in order. -/
def concatLexemes : List Token → List Char
  | [] => []
  | t :: ts => t.lexeme ++ concatLexemes ts

/-- `SpacesRemoved t u` — `t` is obtained from `u` by deleting some of
its plain-space characters. -/
inductive SpacesRemoved : List Char → List Char → Prop
  | nil : SpacesRemoved [] []
  | keep (c : Char) {t u : List Char} :
      SpacesRemoved t u → SpacesRemoved (c :: t) (c :: u)
  | skip {t u : List Char} :
      SpacesRemoved t u → SpacesRemoved t (' ' :: u)

/-- Number of bracket tokens (LEFT_BRACKET or RIGHT_BRACKET) in a list. -/
def bracketCount (ts : List Token) : Nat :=
  ts.countP fun t => decide (t.kind = Kind.LEFT_BRACKET ∨ t.kind = Kind.RIGHT_BRACKET)

/-- Parity of the number of bracket tokens in a list. -/
def bracketParity (ts : List Token) : Bool := bracketCount ts % 2 == 1

/-- Number of tokens of kind `k` in a list. -/
def countKind (k : Kind) (ts : List Token) : Nat :=
  ts.countP fun t => decide (t.kind = k)

example : scan [] = some [] := by decide

example : scan ['[','1',',','2',']'] =
    some [⟨Kind.LEFT_BRACKET, ['[']⟩, ⟨Kind.NUMBER, ['1']⟩,
          ⟨Kind.ARRAY_COMMA, [',']⟩, ⟨Kind.NUMBER, ['2']⟩,
          ⟨Kind.RIGHT_BRACKET, [']']⟩] := by decide

example : scan ['"','a','"'] = some [⟨Kind.STRING, ['"','a','"']⟩] := by decide

example : scan ['{','"','a','"',':','"','b'] = none := by decide

example : scan ['t','a','b','c'] = none := by decide

example : scan ['t','r','u'] = some [⟨Kind.LETTER, ['t','r','u']⟩] := by decide

example : scan ['t','r','u','e'] = some [⟨Kind.TRUE, ['t','r','u','e']⟩] := by decide

/-! ### List and slice lemmas -/

lemma drop_take_append (t : List Char) (i j : Nat) (h : i ≤ j) :
    (t.take j).drop i ++ t.drop j = t.drop i := by
  conv_rhs => rw [← List.take_append_drop j t]
  rw [List.drop_append_eq_append_drop]
  rcases le_or_lt i (t.take j).length with hle | hlt
  · have h0 : i - (t.take j).length = 0 := by omega
    rw [h0, List.drop_zero]
  · have hlen : t.length < i := by
      have := List.length_take j t
      omega
    have hnil : t.drop j = [] := List.drop_eq_nil_of_le (by omega)
    rw [hnil]
    simp

lemma goSlice_append (s : List Char) (i j k : Nat) (hij : i ≤ j) (hjk : j ≤ k) :
    goSlice s i j ++ goSlice s j k = goSlice s i k := by
  unfold goSlice
  have ht : s.take j = (s.take k).take j := by
    rw [List.take_take, min_eq_left hjk]
  rw [ht]
  exact drop_take_append (s.take k) i j hij

lemma drop_eq_slice_append (s : List Char) (i j : Nat) (h : i ≤ j) :
    s.drop i = goSlice s i j ++ s.drop j := (drop_take_append s i j h).symm

lemma goSlice_singleton (s : List Char) (i : Nat) (h : i < s.length) :
    goSlice s i (i+1) = [s[i]] := by
  unfold goSlice
  rw [List.drop_take (i+1) i s, List.drop_eq_getElem_cons h]
  have h1 : i + 1 - i = 1 := by omega
  rw [h1]
  rfl

lemma goSlice_length (s : List Char) (i k : Nat) (h : i + k ≤ s.length) :
    (goSlice s i (i+k)).length = k := by
  unfold goSlice
  rw [List.length_drop, List.length_take]
  omega

/-! ### Lemmas about the scanner's helper loops -/

lemma letterRun_ge (f : Nat) : ∀ s i, i ≤ letterRun f s i := by
  induction f with
  | zero => intro s i; simp [letterRun]
  | succ f ih =>
    intro s i
    rw [letterRun]
    split
    · split
      · exact le_trans (by omega) (ih s (i+1))
      · exact le_refl i
    · exact le_refl i

lemma numberRun_ge (f : Nat) : ∀ s i, i ≤ numberRun f s i := by
  induction f with
  | zero => intro s i; simp [numberRun]
  | succ f ih =>
    intro s i
    rw [numberRun]
    split
    · split
      · exact le_trans (by omega) (ih s (i+1))
      · exact le_refl i
    · exact le_refl i

lemma letterRun_gt (s : List Char) (i : Nat) (h : i < s.length)
    (hc : goIsLetter s[i]) : i < letterRun (s.length - i) s i := by
  have hf : s.length - i = (s.length - (i+1)) + 1 := by omega
  rw [hf, letterRun, dif_pos h, if_pos hc]
  exact lt_of_lt_of_le (by omega) (letterRun_ge _ s (i+1))

lemma numberRun_gt (s : List Char) (i : Nat) (h : i < s.length)
    (hc : isValidNumberCode s[i]) : i < numberRun (s.length - i) s i := by
  have hf : s.length - i = (s.length - (i+1)) + 1 := by omega
  rw [hf, numberRun, dif_pos h, if_pos hc]
  exact lt_of_lt_of_le (by omega) (numberRun_ge _ s (i+1))

lemma number_branch_valid (c : Char) (hc : c = '-' ∨ goIsDigit c) :
    isValidNumberCode c := by
  rcases hc with hc | hc
  · subst hc; decide
  · simp [isValidNumberCode, hc]

/-! ### concatLexemes and SpacesRemoved lemmas -/

lemma concatLexemes_cons (t : Token) (ts : List Token) :
    concatLexemes (t :: ts) = t.lexeme ++ concatLexemes ts := rfl

lemma concatLexemes_append (l₁ l₂ : List Token) :
    concatLexemes (l₁ ++ l₂) = concatLexemes l₁ ++ concatLexemes l₂ := by
  induction l₁ with
  | nil => rfl
  | cons t ts ih => simp [concatLexemes_cons, ih]

lemma spacesRemoved_append_left (p : List Char) {t u : List Char}
    (h : SpacesRemoved t u) : SpacesRemoved (p ++ t) (p ++ u) := by
  induction p with
  | nil => exact h
  | cons c p ih => exact SpacesRemoved.keep c ih

/-! ### The string-loop invariants -/

lemma stringLoop_spec (f : Nat) : ∀ s i start ts j,
    stringLoop f s i start = some (ts, j) →
    i < j ∧ j ≤ s.length ∧
    (start ≤ i → concatLexemes ts = goSlice s start j) ∧
    (∀ t ∈ ts, t.kind = Kind.STRING ∨ t.kind = Kind.ESCAPE) := by
  induction f with
  | zero => intro s i start ts j h; simp [stringLoop] at h
  | succ f ih =>
    intro s i start ts j h
    rw [stringLoop] at h
    by_cases hn : i < s.length
    · rw [dif_pos hn] at h
      by_cases hq : s[i] = '"'
      · rw [if_pos hq] at h
        simp only [Option.some.injEq, Prod.mk.injEq] at h
        obtain ⟨hts, hj⟩ := h
        subst hts; subst hj
        refine ⟨by omega, by omega, fun _ => ?_, ?_⟩
        · simp [concatLexemes]
        · intro t ht
          simp only [List.mem_singleton] at ht
          subst ht
          exact Or.inl rfl
      · rw [if_neg hq] at h
        by_cases hb : s[i] = '\\'
        · rw [if_pos hb] at h
          by_cases h2 : i+1 < s.length
          · rw [dif_pos h2] at h
            by_cases hu : s[i+1] = 'u'
            · rw [if_pos hu] at h
              by_cases h6 : i+6 ≤ s.length
              · rw [if_pos h6] at h
                simp only [Option.map_eq_map, Option.map_eq_some'] at h
                obtain ⟨⟨ts', j'⟩, hrec, hpair⟩ := h
                simp only [Prod.mk.injEq] at hpair
                obtain ⟨hts, hj⟩ := hpair
                subst hts; subst hj
                obtain ⟨hj1, hj2, hcat, hkinds⟩ := ih s (i+6) (i+6) ts' j' hrec
                refine ⟨by omega, hj2, fun hsi => ?_, ?_⟩
                · rw [concatLexemes_cons, concatLexemes_cons,
                      hcat (le_refl _), ← List.append_assoc,
                      goSlice_append s start i (i+6) hsi (by omega),
                      goSlice_append s start (i+6) j' (by omega) (by omega)]
                · intro t ht
                  rcases List.mem_cons.mp ht with rfl | ht
                  · exact Or.inl rfl
                  · rcases List.mem_cons.mp ht with rfl | ht
                    · exact Or.inr rfl
                    · exact hkinds t ht
              · rw [if_neg h6] at h; exact absurd h (by simp)
            · rw [if_neg hu] at h
              simp only [Option.map_eq_map, Option.map_eq_some'] at h
              obtain ⟨⟨ts', j'⟩, hrec, hpair⟩ := h
              simp only [Prod.mk.injEq] at hpair
              obtain ⟨hts, hj⟩ := hpair
              subst hts; subst hj
              obtain ⟨hj1, hj2, hcat, hkinds⟩ := ih s (i+2) (i+2) ts' j' hrec
              refine ⟨by omega, hj2, fun hsi => ?_, ?_⟩
              · rw [concatLexemes_cons, concatLexemes_cons,
                    hcat (le_refl _), ← List.append_assoc,
                    goSlice_append s start i (i+2) hsi (by omega),
                    goSlice_append s start (i+2) j' (by omega) (by omega)]
              · intro t ht
                rcases List.mem_cons.mp ht with rfl | ht
                · exact Or.inl rfl
                · rcases List.mem_cons.mp ht with rfl | ht
                  · exact Or.inr rfl
                  · exact hkinds t ht
          · rw [dif_neg h2] at h; exact absurd h (by simp)
        · rw [if_neg hb] at h
          obtain ⟨hj1, hj2, hcat, hkinds⟩ := ih s (i+1) start ts j h
          exact ⟨by omega, hj2, fun hsi => hcat (by omega), hkinds⟩
    · rw [dif_neg hn] at h; exact absurd h (by simp)

/-! ### Case analysis for one step of the scanner's main loop -/

lemma map_cons_eq_some {tok : Token} {X : Option (List Token)} {toks : List Token}
    (h : (fun ts => tok :: ts) <$> X = some toks) :
    ∃ rest, X = some rest ∧ toks = tok :: rest := by
  simp only [Option.map_eq_map, Option.map_eq_some'] at h
  obtain ⟨rest, hX, hc⟩ := h
  exact ⟨rest, hX, hc.symm⟩

lemma scanFrom_succ_cases (f : Nat) (s : List Char) (i : Nat) (ins : Bool)
    (toks : List Token) (hn : i < s.length)
    (h : scanFrom (f+1) s i ins = some toks) :
    (s[i] = ' ' ∧ scanFrom f s (i+1) ins = some toks) ∨
    (∃ rest, s[i] = '{' ∧ toks = ⟨Kind.LEFT_BRACE, ['{']⟩ :: rest ∧
      scanFrom f s (i+1) ins = some rest) ∨
    (∃ rest, s[i] = '}' ∧ toks = ⟨Kind.RIGHT_BRACE, ['}']⟩ :: rest ∧
      scanFrom f s (i+1) ins = some rest) ∨
    (∃ rest, s[i] = '[' ∧ toks = ⟨Kind.LEFT_BRACKET, ['[']⟩ :: rest ∧
      scanFrom f s (i+1) (!ins) = some rest) ∨
    (∃ rest, s[i] = ']' ∧ toks = ⟨Kind.RIGHT_BRACKET, [']']⟩ :: rest ∧
      scanFrom f s (i+1) (!ins) = some rest) ∨
    (∃ rest, s[i] = ',' ∧
      toks = ⟨if ins then Kind.ARRAY_COMMA else Kind.OBJECT_COMMA, [',']⟩ :: rest ∧
      scanFrom f s (i+1) ins = some rest) ∨
    (∃ rest, s[i] = ':' ∧ toks = ⟨Kind.COLON, [':']⟩ :: rest ∧
      scanFrom f s (i+1) ins = some rest) ∨
    (∃ ts j rest, s[i] = '"' ∧ stringLoop f s (i+1) i = some (ts, j) ∧
      scanFrom f s j ins = some rest ∧ toks = ts ++ rest) ∨
    (∃ k j rest, (k = Kind.TRUE ∨ k = Kind.NULL ∨ k = Kind.FALSE ∨ k = Kind.LETTER) ∧
      i ≤ j ∧ toks = ⟨k, goSlice s i j⟩ :: rest ∧ scanFrom f s j ins = some rest) ∨
    (∃ j rest, i ≤ j ∧ toks = ⟨Kind.NUMBER, goSlice s i j⟩ :: rest ∧
      scanFrom f s j ins = some rest) ∨
    (∃ rest, toks = ⟨Kind.UNKNOWN, [s[i]]⟩ :: rest ∧
      scanFrom f s (i+1) ins = some rest) := by
  rw [scanFrom, dif_pos hn] at h
  by_cases hsp : s[i] = ' '
  · rw [if_pos hsp] at h
    exact Or.inl ⟨hsp, h⟩
  rw [if_neg hsp] at h
  by_cases hlb : s[i] = '{'
  · rw [if_pos hlb] at h
    obtain ⟨rest, hrec, htoks⟩ := map_cons_eq_some h
    exact Or.inr (Or.inl ⟨rest, hlb, htoks, hrec⟩)
  rw [if_neg hlb] at h
  by_cases hrb : s[i] = '}'
  · rw [if_pos hrb] at h
    obtain ⟨rest, hrec, htoks⟩ := map_cons_eq_some h
    exact Or.inr (Or.inr (Or.inl ⟨rest, hrb, htoks, hrec⟩))
  rw [if_neg hrb] at h
  by_cases hlk : s[i] = '['
  · rw [if_pos hlk] at h
    obtain ⟨rest, hrec, htoks⟩ := map_cons_eq_some h
    exact Or.inr (Or.inr (Or.inr (Or.inl ⟨rest, hlk, htoks, hrec⟩)))
  rw [if_neg hlk] at h
  by_cases hrk : s[i] = ']'
  · rw [if_pos hrk] at h
    obtain ⟨rest, hrec, htoks⟩ := map_cons_eq_some h
    exact Or.inr (Or.inr (Or.inr (Or.inr (Or.inl ⟨rest, hrk, htoks, hrec⟩))))
  rw [if_neg hrk] at h
  by_cases hcm : s[i] = ','
  · rw [if_pos hcm] at h
    cases ins
    · simp only [Bool.not_false, if_true] at h
      obtain ⟨rest, hrec, htoks⟩ := map_cons_eq_some h
      refine Or.inr (Or.inr (Or.inr (Or.inr (Or.inr (Or.inl ⟨rest, hcm, ?_, hrec⟩)))))
      simpa using htoks
    · simp only [Bool.not_true, if_false] at h
      obtain ⟨rest, hrec, htoks⟩ := map_cons_eq_some h
      refine Or.inr (Or.inr (Or.inr (Or.inr (Or.inr (Or.inl ⟨rest, hcm, ?_, hrec⟩)))))
      simpa using htoks
  rw [if_neg hcm] at h
  by_cases hcl : s[i] = ':'
  · rw [if_pos hcl] at h
    obtain ⟨rest, hrec, htoks⟩ := map_cons_eq_some h
    exact Or.inr (Or.inr (Or.inr (Or.inr (Or.inr (Or.inr (Or.inl ⟨rest, hcl, htoks, hrec⟩))))))
  rw [if_neg hcl] at h
  by_cases hqt : s[i] = '"'
  · rw [if_pos hqt] at h
    rw [Option.bind_eq_some] at h
    obtain ⟨⟨ts, j⟩, hSL, h2⟩ := h
    obtain ⟨rest, hrec, htoks⟩ : ∃ rest, scanFrom f s j ins = some rest ∧ toks = ts ++ rest := by
      simp only [Option.map_eq_map, Option.map_eq_some'] at h2
      obtain ⟨rest, hX, hc⟩ := h2
      exact ⟨rest, hX, hc.symm⟩
    exact Or.inr (Or.inr (Or.inr (Or.inr (Or.inr (Or.inr (Or.inr (Or.inl
      ⟨ts, j, rest, hqt, hSL, hrec, htoks⟩)))))))
  rw [if_neg hqt] at h
  by_cases hlt : goIsLetter s[i]
  · rw [if_pos hlt] at h
    by_cases hc1 : i+3 < s.length ∧ (s[i] = 't' ∨ s[i] = 'n')
    · rw [if_pos hc1] at h
      by_cases ht : goSlice s i (i+4) = ['t','r','u','e']
      · rw [if_pos ht] at h
        obtain ⟨rest, hrec, htoks⟩ := map_cons_eq_some h
        exact Or.inr (Or.inr (Or.inr (Or.inr (Or.inr (Or.inr (Or.inr (Or.inr (Or.inl
          ⟨Kind.TRUE, i+4, rest, Or.inl rfl, by omega, htoks, hrec⟩))))))))
      rw [if_neg ht] at h
      by_cases hnl : goSlice s i (i+4) = ['n','u','l','l']
      · rw [if_pos hnl] at h
        obtain ⟨rest, hrec, htoks⟩ := map_cons_eq_some h
        exact Or.inr (Or.inr (Or.inr (Or.inr (Or.inr (Or.inr (Or.inr (Or.inr (Or.inl
          ⟨Kind.NULL, i+4, rest, Or.inr (Or.inl rfl), by omega, htoks, hrec⟩))))))))
      rw [if_neg hnl] at h
      by_cases h5 : i+5 ≤ s.length
      · rw [if_pos h5] at h
        by_cases hf : goSlice s i (i+5) = ['f','a','l','s','e']
        · rw [if_pos hf] at h
          obtain ⟨rest, hrec, htoks⟩ := map_cons_eq_some h
          exact Or.inr (Or.inr (Or.inr (Or.inr (Or.inr (Or.inr (Or.inr (Or.inr (Or.inl
            ⟨Kind.FALSE, i+5, rest, Or.inr (Or.inr (Or.inl rfl)), by omega, htoks, hrec⟩))))))))
        · rw [if_neg hf] at h
          obtain ⟨rest, hrec, htoks⟩ := map_cons_eq_some h
          exact Or.inr (Or.inr (Or.inr (Or.inr (Or.inr (Or.inr (Or.inr (Or.inr (Or.inl
            ⟨Kind.LETTER, letterRun (s.length - i) s i, rest,
             Or.inr (Or.inr (Or.inr rfl)), letterRun_ge _ s i, htoks, hrec⟩))))))))
      · rw [if_neg h5] at h
        exact absurd h (by simp)
    rw [if_neg hc1] at h
    by_cases hc2 : i+4 < s.length ∧ s[i] = 'f'
    · rw [if_pos hc2] at h
      by_cases hf : goSlice s i (i+5) = ['f','a','l','s','e']
      · rw [if_pos hf] at h
        obtain ⟨rest, hrec, htoks⟩ := map_cons_eq_some h
        exact Or.inr (Or.inr (Or.inr (Or.inr (Or.inr (Or.inr (Or.inr (Or.inr (Or.inl
          ⟨Kind.FALSE, i+5, rest, Or.inr (Or.inr (Or.inl rfl)), by omega, htoks, hrec⟩))))))))
      · rw [if_neg hf] at h
        obtain ⟨rest, hrec, htoks⟩ := map_cons_eq_some h
        exact Or.inr (Or.inr (Or.inr (Or.inr (Or.inr (Or.inr (Or.inr (Or.inr (Or.inl
          ⟨Kind.LETTER, letterRun (s.length - i) s i, rest,
           Or.inr (Or.inr (Or.inr rfl)), letterRun_ge _ s i, htoks, hrec⟩))))))))
    · rw [if_neg hc2] at h
      obtain ⟨rest, hrec, htoks⟩ := map_cons_eq_some h
      exact Or.inr (Or.inr (Or.inr (Or.inr (Or.inr (Or.inr (Or.inr (Or.inr (Or.inl
        ⟨Kind.LETTER, letterRun (s.length - i) s i, rest,
         Or.inr (Or.inr (Or.inr rfl)), letterRun_ge _ s i, htoks, hrec⟩))))))))
  rw [if_neg hlt] at h
  by_cases hnum : s[i] = '-' ∨ goIsDigit s[i]
  · rw [if_pos hnum] at h
    obtain ⟨rest, hrec, htoks⟩ := map_cons_eq_some h
    exact Or.inr (Or.inr (Or.inr (Or.inr (Or.inr (Or.inr (Or.inr (Or.inr (Or.inr (Or.inl
      ⟨numberRun (s.length - i) s i, rest, numberRun_ge _ s i, htoks, hrec⟩)))))))))
  · rw [if_neg hnum] at h
    obtain ⟨rest, hrec, htoks⟩ := map_cons_eq_some h
    exact Or.inr (Or.inr (Or.inr (Or.inr (Or.inr (Or.inr (Or.inr (Or.inr (Or.inr (Or.inr
      ⟨rest, htoks, hrec⟩)))))))))

lemma scanFrom_succ_end (f : Nat) (s : List Char) (i : Nat) (ins : Bool)
    (toks : List Token) (hn : ¬ i < s.length)
    (h : scanFrom (f+1) s i ins = some toks) : toks = [] := by
  rw [scanFrom, dif_neg hn] at h
  simpa using h.symm

/-! ### The scanner reconstructs its input up to skipped spaces -/

lemma spacesRemoved_char_step {s : List Char} {i : Nat} (hn : i < s.length)
    {c : Char} (hc : s[i] = c) {t : List Char}
    (h : SpacesRemoved t (s.drop (i+1))) : SpacesRemoved (c :: t) (s.drop i) := by
  rw [List.drop_eq_getElem_cons hn, hc]
  exact SpacesRemoved.keep c h

lemma spacesRemoved_slice_step {s : List Char} {i j : Nat} (hij : i ≤ j)
    {t : List Char} (h : SpacesRemoved t (s.drop j)) :
    SpacesRemoved (goSlice s i j ++ t) (s.drop i) := by
  rw [drop_eq_slice_append s i j hij]
  exact spacesRemoved_append_left _ h

lemma scanFrom_spacesRemoved (f : Nat) : ∀ s i ins toks,
    scanFrom f s i ins = some toks →
    SpacesRemoved (concatLexemes toks) (s.drop i) := by
  induction f with
  | zero => intro s i ins toks h; simp [scanFrom] at h
  | succ f ih =>
    intro s i ins toks h
    by_cases hn : i < s.length
    · rcases scanFrom_succ_cases f s i ins toks hn h with
        ⟨hsp, hrec⟩ | ⟨rest, hc, htoks, hrec⟩ | ⟨rest, hc, htoks, hrec⟩ |
        ⟨rest, hc, htoks, hrec⟩ | ⟨rest, hc, htoks, hrec⟩ | ⟨rest, hc, htoks, hrec⟩ |
        ⟨rest, hc, htoks, hrec⟩ | ⟨ts, j, rest, hc, hSL, hrec, htoks⟩ |
        ⟨k, j, rest, _, hij, htoks, hrec⟩ | ⟨j, rest, hij, htoks, hrec⟩ |
        ⟨rest, htoks, hrec⟩
      · rw [List.drop_eq_getElem_cons hn, hsp]
        exact SpacesRemoved.skip (ih s (i+1) ins toks hrec)
      · subst htoks
        exact spacesRemoved_char_step hn hc (ih s (i+1) ins rest hrec)
      · subst htoks
        exact spacesRemoved_char_step hn hc (ih s (i+1) ins rest hrec)
      · subst htoks
        exact spacesRemoved_char_step hn hc (ih s (i+1) (!ins) rest hrec)
      · subst htoks
        exact spacesRemoved_char_step hn hc (ih s (i+1) (!ins) rest hrec)
      · subst htoks
        exact spacesRemoved_char_step hn hc (ih s (i+1) ins rest hrec)
      · subst htoks
        exact spacesRemoved_char_step hn hc (ih s (i+1) ins rest hrec)
      · subst htoks
        obtain ⟨hj1, _, hcat, _⟩ := stringLoop_spec f s (i+1) i ts j hSL
        rw [concatLexemes_append, hcat (by omega)]
        exact spacesRemoved_slice_step (by omega) (ih s j ins rest hrec)
      · subst htoks
        rw [concatLexemes_cons]
        exact spacesRemoved_slice_step hij (ih s j ins rest hrec)
      · subst htoks
        rw [concatLexemes_cons]
        exact spacesRemoved_slice_step hij (ih s j ins rest hrec)
      · subst htoks
        exact spacesRemoved_char_step hn rfl (ih s (i+1) ins rest hrec)
    · have htoks := scanFrom_succ_end f s i ins toks hn h
      subst htoks
      rw [List.drop_eq_nil_of_le (by omega)]
      exact SpacesRemoved.nil

/-! ### Comma classification is the parity of bracket encounters -/

lemma mod_two_succ (n : Nat) : ((n+1) % 2 == 1) = !(n % 2 == 1) := by
  rcases Nat.mod_two_eq_zero_or_one n with h | h
  · have h1 : (n+1) % 2 = 1 := by omega
    simp [h1, h]
  · have h1 : (n+1) % 2 = 0 := by omega
    simp [h1, h]

lemma xor_flip (a b : Bool) : Bool.xor a (!b) = Bool.xor (!a) b := by
  cases a <;> cases b <;> rfl

lemma bracketParity_nil : bracketParity [] = false := rfl

lemma bracketParity_cons_bracket {tok : Token}
    (hbr : tok.kind = Kind.LEFT_BRACKET ∨ tok.kind = Kind.RIGHT_BRACKET)
    (ts : List Token) : bracketParity (tok :: ts) = !(bracketParity ts) := by
  simp only [bracketParity, bracketCount, List.countP_cons]
  rcases hbr with h | h <;> simp [h, mod_two_succ]

lemma bracketParity_cons_other {tok : Token}
    (hnb : ¬(tok.kind = Kind.LEFT_BRACKET ∨ tok.kind = Kind.RIGHT_BRACKET))
    (ts : List Token) : bracketParity (tok :: ts) = bracketParity ts := by
  simp only [bracketParity, bracketCount, List.countP_cons]
  simp [hnb]

lemma bracketParity_append_strings {l₁ l₂ : List Token}
    (h : ∀ t ∈ l₁, t.kind = Kind.STRING ∨ t.kind = Kind.ESCAPE) :
    bracketParity (l₁ ++ l₂) = bracketParity l₂ := by
  have h0 : bracketCount l₁ = 0 := by
    refine List.countP_eq_zero.mpr ?_
    intro t ht
    rcases h t ht with h1 | h1 <;> simp [h1]
  simp only [bracketParity, bracketCount] at *
  rw [List.countP_append, h0, Nat.zero_add]

lemma bracketParity_strings {l : List Token}
    (h : ∀ t ∈ l, t.kind = Kind.STRING ∨ t.kind = Kind.ESCAPE) :
    bracketParity l = false := by
  have h0 : bracketCount l = 0 := by
    refine List.countP_eq_zero.mpr ?_
    intro t ht
    rcases h t ht with h1 | h1 <;> simp [h1]
  simp [bracketParity, h0]

lemma parity_step_other {tok : Token}
    (hnb : ¬(tok.kind = Kind.LEFT_BRACKET ∨ tok.kind = Kind.RIGHT_BRACKET))
    (hnc : ¬(tok.kind = Kind.OBJECT_COMMA ∨ tok.kind = Kind.ARRAY_COMMA))
    {rest pre post : List Token} {t : Token} {ins : Bool}
    (hsplit : tok :: rest = pre ++ t :: post)
    (hcomma : t.kind = Kind.OBJECT_COMMA ∨ t.kind = Kind.ARRAY_COMMA)
    (IH : ∀ pre' t' post', rest = pre' ++ t' :: post' →
      t'.kind = Kind.OBJECT_COMMA ∨ t'.kind = Kind.ARRAY_COMMA →
      t'.kind = if Bool.xor ins (bracketParity pre') then Kind.ARRAY_COMMA
                else Kind.OBJECT_COMMA) :
    t.kind = if Bool.xor ins (bracketParity pre) then Kind.ARRAY_COMMA
             else Kind.OBJECT_COMMA := by
  cases pre with
  | nil =>
    simp only [List.nil_append] at hsplit
    injection hsplit with h1 _
    rw [← h1] at hcomma
    exact absurd hcomma hnc
  | cons p pre' =>
    simp only [List.cons_append] at hsplit
    injection hsplit with h1 h2
    rw [← h1, bracketParity_cons_other hnb]
    exact IH pre' t post h2 hcomma

lemma parity_step_bracket {tok : Token}
    (hbr : tok.kind = Kind.LEFT_BRACKET ∨ tok.kind = Kind.RIGHT_BRACKET)
    {rest pre post : List Token} {t : Token} {ins : Bool}
    (hsplit : tok :: rest = pre ++ t :: post)
    (hcomma : t.kind = Kind.OBJECT_COMMA ∨ t.kind = Kind.ARRAY_COMMA)
    (IH : ∀ pre' t' post', rest = pre' ++ t' :: post' →
      t'.kind = Kind.OBJECT_COMMA ∨ t'.kind = Kind.ARRAY_COMMA →
      t'.kind = if Bool.xor (!ins) (bracketParity pre') then Kind.ARRAY_COMMA
                else Kind.OBJECT_COMMA) :
    t.kind = if Bool.xor ins (bracketParity pre) then Kind.ARRAY_COMMA
             else Kind.OBJECT_COMMA := by
  cases pre with
  | nil =>
    simp only [List.nil_append] at hsplit
    injection hsplit with h1 _
    rw [← h1] at hcomma
    rcases hbr with h | h <;> simp [h] at hcomma
  | cons p pre' =>
    simp only [List.cons_append] at hsplit
    injection hsplit with h1 h2
    rw [← h1, bracketParity_cons_bracket hbr, xor_flip]
    exact IH pre' t post h2 hcomma

lemma parity_step_comma {ins : Bool} {rest pre post : List Token} {t : Token}
    (hsplit : (⟨if ins then Kind.ARRAY_COMMA else Kind.OBJECT_COMMA, [',']⟩ : Token) :: rest =
      pre ++ t :: post)
    (IH : ∀ pre' t' post', rest = pre' ++ t' :: post' →
      t'.kind = Kind.OBJECT_COMMA ∨ t'.kind = Kind.ARRAY_COMMA →
      t'.kind = if Bool.xor ins (bracketParity pre') then Kind.ARRAY_COMMA
                else Kind.OBJECT_COMMA)
    (hcomma : t.kind = Kind.OBJECT_COMMA ∨ t.kind = Kind.ARRAY_COMMA) :
    t.kind = if Bool.xor ins (bracketParity pre) then Kind.ARRAY_COMMA
             else Kind.OBJECT_COMMA := by
  cases pre with
  | nil =>
    simp only [List.nil_append] at hsplit
    injection hsplit with h1 _
    rw [← h1, bracketParity_nil, Bool.xor_false]
  | cons p pre' =>
    simp only [List.cons_append] at hsplit
    injection hsplit with h1 h2
    have hnb : ¬(p.kind = Kind.LEFT_BRACKET ∨ p.kind = Kind.RIGHT_BRACKET) := by
      rw [← h1]
      cases ins <;> simp
    rw [bracketParity_cons_other hnb]
    exact IH pre' t post h2 hcomma

lemma scanFrom_comma_parity (f : Nat) : ∀ s i ins toks,
    scanFrom f s i ins = some toks →
    ∀ pre t post, toks = pre ++ t :: post →
    t.kind = Kind.OBJECT_COMMA ∨ t.kind = Kind.ARRAY_COMMA →
    t.kind = if Bool.xor ins (bracketParity pre) then Kind.ARRAY_COMMA
             else Kind.OBJECT_COMMA := by
  induction f with
  | zero => intro s i ins toks h; simp [scanFrom] at h
  | succ f ih =>
    intro s i ins toks h pre t post hsplit hcomma
    by_cases hn : i < s.length
    · rcases scanFrom_succ_cases f s i ins toks hn h with
        ⟨hsp, hrec⟩ | ⟨rest, hc, htoks, hrec⟩ | ⟨rest, hc, htoks, hrec⟩ |
        ⟨rest, hc, htoks, hrec⟩ | ⟨rest, hc, htoks, hrec⟩ | ⟨rest, hc, htoks, hrec⟩ |
        ⟨rest, hc, htoks, hrec⟩ | ⟨ts, j, rest, hc, hSL, hrec, htoks⟩ |
        ⟨k, j, rest, hk, hij, htoks, hrec⟩ | ⟨j, rest, hij, htoks, hrec⟩ |
        ⟨rest, htoks, hrec⟩
      · exact ih s (i+1) ins toks hrec pre t post hsplit hcomma
      · rw [htoks] at hsplit
        exact parity_step_other (by simp) (by simp) hsplit hcomma
          (fun pre' t' post' h' hc' => ih s (i+1) ins rest hrec pre' t' post' h' hc')
      · rw [htoks] at hsplit
        exact parity_step_other (by simp) (by simp) hsplit hcomma
          (fun pre' t' post' h' hc' => ih s (i+1) ins rest hrec pre' t' post' h' hc')
      · rw [htoks] at hsplit
        exact parity_step_bracket (by simp) hsplit hcomma
          (fun pre' t' post' h' hc' => ih s (i+1) (!ins) rest hrec pre' t' post' h' hc')
      · rw [htoks] at hsplit
        exact parity_step_bracket (by simp) hsplit hcomma
          (fun pre' t' post' h' hc' => ih s (i+1) (!ins) rest hrec pre' t' post' h' hc')
      · rw [htoks] at hsplit
        exact parity_step_comma hsplit
          (fun pre' t' post' h' hc' => ih s (i+1) ins rest hrec pre' t' post' h' hc') hcomma
      · rw [htoks] at hsplit
        exact parity_step_other (by simp) (by simp) hsplit hcomma
          (fun pre' t' post' h' hc' => ih s (i+1) ins rest hrec pre' t' post' h' hc')
      · rw [htoks] at hsplit
        obtain ⟨_, _, _, hkinds⟩ := stringLoop_spec f s (i+1) i ts j hSL
        rcases List.append_eq_append_iff.mp hsplit with ⟨pre', hpre, hrest⟩ | ⟨c', hts, hpost⟩
        · rw [hpre, bracketParity_append_strings hkinds]
          exact ih s j ins rest hrec pre' t post hrest hcomma
        · cases c' with
          | nil =>
            rw [List.append_nil] at hts
            simp only [List.nil_append] at hpost
            have := ih s j ins rest hrec [] t post hpost.symm hcomma
            rw [← hts, bracketParity_strings hkinds]
            rwa [bracketParity_nil] at this
          | cons c c's =>
            simp only [List.cons_append] at hpost
            injection hpost with h1 _
            have hmem : c ∈ ts := by rw [hts]; simp
            rcases hkinds c hmem with hk1 | hk1 <;> rw [h1] at hcomma <;>
              rcases hcomma with hc2 | hc2 <;> rw [hk1] at hc2 <;> exact absurd hc2 (by simp)
      · rw [htoks] at hsplit
        refine parity_step_other ?_ ?_ hsplit hcomma
          (fun pre' t' post' h' hc' => ih s j ins rest hrec pre' t' post' h' hc') <;>
          rcases hk with rfl | rfl | rfl | rfl <;> simp
      · rw [htoks] at hsplit
        exact parity_step_other (by simp) (by simp) hsplit hcomma
          (fun pre' t' post' h' hc' => ih s j ins rest hrec pre' t' post' h' hc')
      · rw [htoks] at hsplit
        exact parity_step_other (by simp) (by simp) hsplit hcomma
          (fun pre' t' post' h' hc' => ih s (i+1) ins rest hrec pre' t' post' h' hc')
    · have htoks := scanFrom_succ_end f s i ins toks hn h
      rw [htoks] at hsplit
      exact absurd hsplit (by cases pre <;> simp)

/-! ### Fuel independence: any fuel above the remaining length gives the
same result, so a `none` result is a modelled panic, not fuel shortage. -/

lemma stringLoop_fuel : ∀ f1 f2 s i start, s.length - i < f1 → s.length - i < f2 →
    stringLoop f1 s i start = stringLoop f2 s i start := by
  intro f1
  induction f1 with
  | zero => intro f2 s i start h1 h2; omega
  | succ a ih =>
    intro f2 s i start h1 h2
    cases f2 with
    | zero => omega
    | succ b =>
      rw [stringLoop]
      conv_rhs => rw [stringLoop]
      by_cases hn : i < s.length
      · rw [dif_pos hn, dif_pos hn]
        by_cases hq : s[i] = '"'
        · rw [if_pos hq, if_pos hq]
        rw [if_neg hq, if_neg hq]
        by_cases hb : s[i] = '\\'
        · rw [if_pos hb, if_pos hb]
          by_cases h2' : i+1 < s.length
          · rw [dif_pos h2', dif_pos h2']
            by_cases hu : s[i+1] = 'u'
            · rw [if_pos hu, if_pos hu]
              by_cases h6 : i+6 ≤ s.length
              · rw [if_pos h6, if_pos h6, ih b s (i+6) (i+6) (by omega) (by omega)]
              · rw [if_neg h6, if_neg h6]
            · rw [if_neg hu, if_neg hu, ih b s (i+2) (i+2) (by omega) (by omega)]
          · rw [dif_neg h2', dif_neg h2']
        · rw [if_neg hb, if_neg hb]
          exact ih b s (i+1) start (by omega) (by omega)
      · rw [dif_neg hn, dif_neg hn]

lemma scanFrom_fuel : ∀ f1 f2 s i ins, s.length - i < f1 → s.length - i < f2 →
    scanFrom f1 s i ins = scanFrom f2 s i ins := by
  intro f1
  induction f1 with
  | zero => intro f2 s i ins h1 h2; omega
  | succ a ih =>
    intro f2 s i ins h1 h2
    cases f2 with
    | zero => omega
    | succ b =>
      rw [scanFrom]
      conv_rhs => rw [scanFrom]
      by_cases hn : i < s.length
      · rw [dif_pos hn, dif_pos hn]
        by_cases hsp : s[i] = ' '
        · rw [if_pos hsp, if_pos hsp]
          exact ih b s (i+1) ins (by omega) (by omega)
        rw [if_neg hsp, if_neg hsp]
        by_cases hlb : s[i] = '{'
        · rw [if_pos hlb, if_pos hlb, ih b s (i+1) ins (by omega) (by omega)]
        rw [if_neg hlb, if_neg hlb]
        by_cases hrb : s[i] = '}'
        · rw [if_pos hrb, if_pos hrb, ih b s (i+1) ins (by omega) (by omega)]
        rw [if_neg hrb, if_neg hrb]
        by_cases hlk : s[i] = '['
        · rw [if_pos hlk, if_pos hlk, ih b s (i+1) (!ins) (by omega) (by omega)]
        rw [if_neg hlk, if_neg hlk]
        by_cases hrk : s[i] = ']'
        · rw [if_pos hrk, if_pos hrk, ih b s (i+1) (!ins) (by omega) (by omega)]
        rw [if_neg hrk, if_neg hrk]
        by_cases hcm : s[i] = ','
        · rw [if_pos hcm, if_pos hcm, ih b s (i+1) ins (by omega) (by omega)]
        rw [if_neg hcm, if_neg hcm]
        by_cases hcl : s[i] = ':'
        · rw [if_pos hcl, if_pos hcl, ih b s (i+1) ins (by omega) (by omega)]
        rw [if_neg hcl, if_neg hcl]
        by_cases hqt : s[i] = '"'
        · rw [if_pos hqt, if_pos hqt,
              stringLoop_fuel a b s (i+1) i (by omega) (by omega)]
          cases hSL : stringLoop b s (i+1) i with
          | none => rfl
          | some p =>
            obtain ⟨ts, j⟩ := p
            obtain ⟨hj1, hj2, _, _⟩ := stringLoop_spec b s (i+1) i ts j hSL
            simp only [Option.some_bind]
            rw [ih b s j ins (by omega) (by omega)]
        rw [if_neg hqt, if_neg hqt]
        by_cases hlt : goIsLetter s[i]
        · rw [if_pos hlt, if_pos hlt]
          have hjl := letterRun_gt s i hn hlt
          by_cases hc1 : i+3 < s.length ∧ (s[i] = 't' ∨ s[i] = 'n')
          · rw [if_pos hc1, if_pos hc1]
            by_cases ht : goSlice s i (i+4) = ['t','r','u','e']
            · rw [if_pos ht, if_pos ht, ih b s (i+4) ins (by omega) (by omega)]
            rw [if_neg ht, if_neg ht]
            by_cases hnl : goSlice s i (i+4) = ['n','u','l','l']
            · rw [if_pos hnl, if_pos hnl, ih b s (i+4) ins (by omega) (by omega)]
            rw [if_neg hnl, if_neg hnl]
            by_cases h5 : i+5 ≤ s.length
            · rw [if_pos h5, if_pos h5]
              by_cases hf : goSlice s i (i+5) = ['f','a','l','s','e']
              · rw [if_pos hf, if_pos hf, ih b s (i+5) ins (by omega) (by omega)]
              · rw [if_neg hf, if_neg hf,
                    ih b s (letterRun (s.length - i) s i) ins (by omega) (by omega)]
            · rw [if_neg h5, if_neg h5]
          rw [if_neg hc1, if_neg hc1]
          by_cases hc2 : i+4 < s.length ∧ s[i] = 'f'
          · rw [if_pos hc2, if_pos hc2]
            by_cases hf : goSlice s i (i+5) = ['f','a','l','s','e']
            · rw [if_pos hf, if_pos hf, ih b s (i+5) ins (by omega) (by omega)]
            · rw [if_neg hf, if_neg hf,
                  ih b s (letterRun (s.length - i) s i) ins (by omega) (by omega)]
          · rw [if_neg hc2, if_neg hc2,
                ih b s (letterRun (s.length - i) s i) ins (by omega) (by omega)]
        rw [if_neg hlt, if_neg hlt]
        by_cases hnum : s[i] = '-' ∨ goIsDigit s[i]
        · have hjn := numberRun_gt s i hn (number_branch_valid s[i] hnum)
          rw [if_pos hnum, if_pos hnum,
              ih b s (numberRun (s.length - i) s i) ins (by omega) (by omega)]
        · rw [if_neg hnum, if_neg hnum, ih b s (i+1) ins (by omega) (by omega)]
      · rw [dif_neg hn, dif_neg hn]

/-! ### Renderer lemmas -/

lemma printIndent_nonpos (d : Int) (h : d ≤ 0) : printIndent d = [] := by
  unfold printIndent
  rw [Int.toNat_of_nonpos h]
  rfl

lemma countKind_cons (k : Kind) (t : Token) (ts : List Token) :
    countKind k (t :: ts) = countKind k ts + (if t.kind = k then 1 else 0) := by
  simp [countKind, List.countP_cons]

lemma countKind_append (k : Kind) (l₁ l₂ : List Token) :
    countKind k (l₁ ++ l₂) = countKind k l₁ + countKind k l₂ := by
  simp [countKind, List.countP_append]

lemma renderToken_depth (bc : Int) (t : Token) :
    (renderToken bc t).1 = bc + (if t.kind = Kind.LEFT_BRACE then 1 else 0)
      - (if t.kind = Kind.RIGHT_BRACE then 1 else 0) := by
  cases ht : t.kind <;> simp [renderToken, ht]

lemma depthAfter_foldl (ts : List Token) : ∀ d : Int,
    ts.foldl (fun bc t => (renderToken bc t).1) d =
      d + (countKind Kind.LEFT_BRACE ts : Int) - (countKind Kind.RIGHT_BRACE ts : Int) := by
  induction ts with
  | nil => intro d; simp [countKind]
  | cons t ts ih =>
    intro d
    rw [List.foldl_cons, ih, renderToken_depth, countKind_cons, countKind_cons]
    by_cases h1 : t.kind = Kind.LEFT_BRACE <;> by_cases h2 : t.kind = Kind.RIGHT_BRACE <;>
      simp [h1, h2] <;> omega

lemma renderToken_string (bc : Int) (t : Token) (ht : t.kind = Kind.STRING) :
    (renderToken bc t).2 =
      concatMapChars (fun c => printSpanTags (kindColor Kind.STRING) (htmlEscapeChar c))
        t.lexeme := by
  simp [renderToken, ht]

/-! ### An escape-free string region scans to one STRING token -/

lemma stringLoop_no_escape (f : Nat) : ∀ s i start j, i ≤ j →
    ∀ (hj : j < s.length), s[j] = '"' →
    (∀ m (hm : m < s.length), i ≤ m → m < j → s[m] ≠ '"' ∧ s[m] ≠ '\\') →
    j - i < f →
    stringLoop f s i start = some ([⟨Kind.STRING, goSlice s start (j+1)⟩], j+1) := by
  induction f with
  | zero => intro s i start j hij hj hq hmid hf; omega
  | succ f ih =>
    intro s i start j hij hj hq hmid hf
    rcases Nat.eq_or_lt_of_le hij with rfl | hlt
    · rw [stringLoop, dif_pos hj, if_pos hq]
    · have hi : i < s.length := by omega
      obtain ⟨hne1, hne2⟩ := hmid i hi (le_refl i) hlt
      rw [stringLoop, dif_pos hi, if_neg hne1, if_neg hne2]
      exact ih s (i+1) start j (by omega) hj hq
        (fun m hm h1 h2 => hmid m hm (by omega) h2) (by omega)

/-! ## Claims -/

/-- C1: the claim says scan must not crash on an unterminated string and
must return the tokens recognized up to end of input.  The code violates
this: on `{"a":"b` the string loop exits with `i = len(s)`, then `i++`
makes the flush slice `s[start:len(s)+1]`, which is out of range, a Go
runtime panic (modelled as `none`).  The second conjunct shows the
result is `none` for every sufficient fuel, so it is the modelled panic
and not fuel exhaustion. -/
theorem scan_unterminated_string_panics :
    scan ['{','"','a','"',':','"','b'] = none ∧
    ∀ k : Nat, scanFrom (8+k) ['{','"','a','"',':','"','b'] 0 false = none := by
  constructor
  · decide
  · intro k
    rw [scanFrom_fuel (8+k) 8 ['{','"','a','"',':','"','b'] 0 false
         (by show 7 - 0 < 8 + k; omega) (by show 7 - 0 < 8; omega)]
    decide

/-- C2: the claim says a trailing letter run too short to compare against
the keyword literals is accumulated as a LETTER token without panicking.
The code violates this: on `tabc` the first switch case passes its
`i+3 < n` guard, the slice is neither "true" nor "null", and the Go
`fallthrough` enters the "false" comparison body without its `i+4 < n`
guard, so `s[0:5]` on a length-4 input is out of range, a runtime panic
(modelled as `none`, for every sufficient fuel).  A run that fails the
first guard, such as `tru`, does fall through to a LETTER token as the
claim describes. -/
theorem scan_short_keyword_run_panics :
    scan ['t','a','b','c'] = none ∧
    (∀ k : Nat, scanFrom (5+k) ['t','a','b','c'] 0 false = none) ∧
    scan ['t','r','u'] = some [⟨Kind.LETTER, ['t','r','u']⟩] := by
  refine ⟨by decide, ?_, by decide⟩
  intro k
  rw [scanFrom_fuel (5+k) 5 ['t','a','b','c'] 0 false
       (by show 4 - 0 < 5 + k; omega) (by show 4 - 0 < 5; omega)]
  decide

/-- C3 counterexample: the claim says the quote characters never appear in
any emitted lexeme, but scanning `"a"` yields a single STRING token whose
lexeme is the full `"a"` slice, quotes included: the string case sets
`start := i` at the opening quote and flushes `s[start:i]` with `i` one
past the closing quote. -/
theorem string_lexeme_contains_quotes_cex :
    scan ['"','a','"'] = some [⟨Kind.STRING, ['"','a','"']⟩] ∧
    '"' ∈ Token.lexeme ⟨Kind.STRING, ['"','a','"']⟩ :=
  ⟨by decide, by decide⟩

/-- C3 (amended): the quote characters are consumed and are included in
the STRING fragments: for a quote at `i` closed at `j` with no escape or
quote strictly between them, the scanner emits exactly one STRING token
for the region, whose lexeme `s[i:j+1]` begins with the opening quote
and ends with the closing quote. -/
theorem string_region_lexeme_includes_quotes (f : Nat) (s : List Char) (i j : Nat)
    (ins : Bool) (hi : i < s.length) (hj : j < s.length) (hij : i < j)
    (hqi : s[i] = '"') (hqj : s[j] = '"')
    (hmid : ∀ m (hm : m < s.length), i < m → m < j → s[m] ≠ '"' ∧ s[m] ≠ '\\')
    (hf : j - i ≤ f) :
    scanFrom (f+1) s i ins =
      (fun ts => ⟨Kind.STRING, goSlice s i (j+1)⟩ :: ts) <$> scanFrom f s (j+1) ins ∧
    (goSlice s i (j+1)).head? = some '"' ∧
    (goSlice s i (j+1)).getLast? = some '"' := by
  have hSL : stringLoop f s (i+1) i = some ([⟨Kind.STRING, goSlice s i (j+1)⟩], j+1) :=
    stringLoop_no_escape f s (i+1) i j (by omega) hj hqj
      (fun m hm h1 h2 => hmid m hm (by omega) h2) (by omega)
  refine ⟨?_, ?_, ?_⟩
  · rw [scanFrom, dif_pos hi,
        if_neg (by rw [hqi]; decide), if_neg (by rw [hqi]; decide),
        if_neg (by rw [hqi]; decide), if_neg (by rw [hqi]; decide),
        if_neg (by rw [hqi]; decide), if_neg (by rw [hqi]; decide),
        if_neg (by rw [hqi]; decide), if_pos hqi, hSL]
    rfl
  · have h1 : goSlice s i (i+1) ++ goSlice s (i+1) (j+1) = goSlice s i (j+1) :=
      goSlice_append s i (i+1) (j+1) (by omega) (by omega)
    rw [← h1, goSlice_singleton s i hi, hqi]
    rfl
  · have h1 : goSlice s i j ++ goSlice s j (j+1) = goSlice s i (j+1) :=
      goSlice_append s i j (j+1) (by omega) (by omega)
    rw [← h1, goSlice_singleton s j hj, hqj]
    exact List.getLast?_concat _

/-- C3 witness: the amended theorem applied to the input `"a"`. -/
theorem string_region_lexeme_includes_quotes_witness :
    scanFrom 3 ['"','a','"'] 0 false =
      (fun ts => ⟨Kind.STRING, goSlice ['"','a','"'] 0 3⟩ :: ts) <$>
        scanFrom 2 ['"','a','"'] 3 false ∧
    (goSlice ['"','a','"'] 0 3).head? = some '"' ∧
    (goSlice ['"','a','"'] 0 3).getLast? = some '"' :=
  string_region_lexeme_includes_quotes 2 ['"','a','"'] 0 2 false (by decide) (by decide)
    (by decide) (by decide) (by decide) (by decide) (by decide)

/-- C4: the concatenation of the lexemes of all tokens returned by scan,
in order, is the input with exactly the skipped plain-space characters
removed (`SpacesRemoved` relates the concatenation to the input by
deleting only space characters). -/
theorem scan_lexemes_reconstruct_input (s : List Char) (toks : List Token)
    (h : scan s = some toks) : SpacesRemoved (concatLexemes toks) s := by
  have h0 := scanFrom_spacesRemoved (s.length + 1) s 0 false toks h
  simpa using h0

/-- C4 witness: the reconstruction theorem applied to the input `{ }`. -/
theorem scan_lexemes_reconstruct_input_witness :
    SpacesRemoved (concatLexemes [⟨Kind.LEFT_BRACE, ['{']⟩, ⟨Kind.RIGHT_BRACE, ['}']⟩])
      ['{',' ','}'] :=
  scan_lexemes_reconstruct_input ['{',' ','}']
    [⟨Kind.LEFT_BRACE, ['{']⟩, ⟨Kind.RIGHT_BRACE, ['}']⟩] (by decide)

/-- C5: each structural character `{ } [ ] : ,` scanned at the head of the
loop produces exactly one token of the corresponding kind and advances by
one position; `[` and `]` each flip the insideArray toggle; a comma is
classified ARRAY_COMMA when the toggle is true and OBJECT_COMMA when it
is false; and in the output of a whole scan (toggle starting false) every
comma token's kind is determined by the parity of the number of bracket
tokens emitted before it. -/
theorem structural_tokens_and_comma_toggle :
    (∀ (f : Nat) (s : List Char) (i : Nat) (ins : Bool) (h : i < s.length),
      s[i] = '{' →
      scanFrom (f+1) s i ins =
        (fun ts => ⟨Kind.LEFT_BRACE, ['{']⟩ :: ts) <$> scanFrom f s (i+1) ins) ∧
    (∀ (f : Nat) (s : List Char) (i : Nat) (ins : Bool) (h : i < s.length),
      s[i] = '}' →
      scanFrom (f+1) s i ins =
        (fun ts => ⟨Kind.RIGHT_BRACE, ['}']⟩ :: ts) <$> scanFrom f s (i+1) ins) ∧
    (∀ (f : Nat) (s : List Char) (i : Nat) (ins : Bool) (h : i < s.length),
      s[i] = '[' →
      scanFrom (f+1) s i ins =
        (fun ts => ⟨Kind.LEFT_BRACKET, ['[']⟩ :: ts) <$> scanFrom f s (i+1) (!ins)) ∧
    (∀ (f : Nat) (s : List Char) (i : Nat) (ins : Bool) (h : i < s.length),
      s[i] = ']' →
      scanFrom (f+1) s i ins =
        (fun ts => ⟨Kind.RIGHT_BRACKET, [']']⟩ :: ts) <$> scanFrom f s (i+1) (!ins)) ∧
    (∀ (f : Nat) (s : List Char) (i : Nat) (ins : Bool) (h : i < s.length),
      s[i] = ':' →
      scanFrom (f+1) s i ins =
        (fun ts => ⟨Kind.COLON, [':']⟩ :: ts) <$> scanFrom f s (i+1) ins) ∧
    (∀ (f : Nat) (s : List Char) (i : Nat) (ins : Bool) (h : i < s.length),
      s[i] = ',' →
      scanFrom (f+1) s i ins =
        (fun ts => (if ins then (⟨Kind.ARRAY_COMMA, [',']⟩ : Token)
                    else ⟨Kind.OBJECT_COMMA, [',']⟩) :: ts) <$> scanFrom f s (i+1) ins) ∧
    (∀ (s : List Char) (toks : List Token), scan s = some toks →
      ∀ pre t post, toks = pre ++ t :: post →
      t.kind = Kind.OBJECT_COMMA ∨ t.kind = Kind.ARRAY_COMMA →
      t.kind = if bracketParity pre then Kind.ARRAY_COMMA else Kind.OBJECT_COMMA) := by
  refine ⟨?_, ?_, ?_, ?_, ?_, ?_, ?_⟩
  · intro f s i ins h hc
    rw [scanFrom, dif_pos h, if_neg (by rw [hc]; decide), if_pos hc]
  · intro f s i ins h hc
    rw [scanFrom, dif_pos h, if_neg (by rw [hc]; decide), if_neg (by rw [hc]; decide),
        if_pos hc]
  · intro f s i ins h hc
    rw [scanFrom, dif_pos h, if_neg (by rw [hc]; decide), if_neg (by rw [hc]; decide),
        if_neg (by rw [hc]; decide), if_pos hc]
  · intro f s i ins h hc
    rw [scanFrom, dif_pos h, if_neg (by rw [hc]; decide), if_neg (by rw [hc]; decide),
        if_neg (by rw [hc]; decide), if_neg (by rw [hc]; decide), if_pos hc]
  · intro f s i ins h hc
    rw [scanFrom, dif_pos h, if_neg (by rw [hc]; decide), if_neg (by rw [hc]; decide),
        if_neg (by rw [hc]; decide), if_neg (by rw [hc]; decide),
        if_neg (by rw [hc]; decide), if_neg (by rw [hc]; decide), if_pos hc]
  · intro f s i ins h hc
    rw [scanFrom, dif_pos h, if_neg (by rw [hc]; decide), if_neg (by rw [hc]; decide),
        if_neg (by rw [hc]; decide), if_neg (by rw [hc]; decide),
        if_neg (by rw [hc]; decide), if_pos hc]
    cases ins <;> rfl
  · intro s toks h pre t post hsplit hcomma
    have h0 := scanFrom_comma_parity (s.length+1) s 0 false toks h pre t post hsplit hcomma
    simpa using h0

/-- C5 witness: the LEFT_BRACE step on the input `{`, and the comma
classification in the output of scanning `[,`, where one bracket has been
seen and the comma is ARRAY_COMMA by odd parity. -/
theorem structural_tokens_and_comma_toggle_witness :
    scanFrom 2 ['{'] 0 false =
      (fun ts => ⟨Kind.LEFT_BRACE, ['{']⟩ :: ts) <$> scanFrom 1 ['{'] 1 false ∧
    Token.kind ⟨Kind.ARRAY_COMMA, [',']⟩ =
      (if bracketParity [⟨Kind.LEFT_BRACKET, ['[']⟩] then Kind.ARRAY_COMMA
       else Kind.OBJECT_COMMA) :=
  ⟨structural_tokens_and_comma_toggle.1 1 ['{'] 0 false (by decide) (by decide),
   structural_tokens_and_comma_toggle.2.2.2.2.2.2 ['[',',']
     [⟨Kind.LEFT_BRACKET, ['[']⟩, ⟨Kind.ARRAY_COMMA, [',']⟩]
     (by decide) [⟨Kind.LEFT_BRACKET, ['[']⟩] ⟨Kind.ARRAY_COMMA, [',']⟩ [] rfl
     (Or.inr rfl)⟩

/-- C6 counterexample: the claim says every `<` `>` `&` `"` `'` of string
content is rendered only as its named entity, never as the raw
character.  The code violates this for characters written via escape
sequences: on the input `"\""` the scanner emits an ESCAPE token with
lexeme backslash-quote, and the renderer's default arm prints that
lexeme verbatim inside its span, so the raw `"` appears in the output
where the claim requires `&quot;` (the per-character escaped rendering
differs). -/
theorem escape_token_renders_raw_special_cex :
    scan ['"','\\','"','"'] =
      some [⟨Kind.STRING, ['"']⟩, ⟨Kind.ESCAPE, ['\\','"']⟩, ⟨Kind.STRING, ['"']⟩] ∧
    (renderToken 0 ⟨Kind.ESCAPE, ['\\','"']⟩).2 =
      printSpanTags (kindColor Kind.ESCAPE) ['\\','"'] ∧
    '"' ∈ (renderToken 0 ⟨Kind.ESCAPE, ['\\','"']⟩).2 ∧
    (renderToken 0 ⟨Kind.ESCAPE, ['\\','"']⟩).2 ≠
      concatMapChars (fun c => printSpanTags (kindColor Kind.ESCAPE) (htmlEscapeChar c))
        ['\\','"'] :=
  ⟨by decide, rfl, by decide, by decide⟩

/-- C6 (amended): every character of a STRING token's lexeme is rendered
through the HTML-escaping switch — each of `<` `>` `&` `"` `'` becomes
its named entity and every other character is emitted as itself, one
span per character; characters inside ESCAPE tokens are rendered
verbatim, so specials written via escape sequences appear raw. -/
theorem string_token_chars_html_escaped (bc : Int) (t : Token)
    (ht : t.kind = Kind.STRING) :
    (renderToken bc t).2 =
      concatMapChars (fun c => printSpanTags (kindColor Kind.STRING) (htmlEscapeChar c))
        t.lexeme ∧
    htmlEscapeChar '<' = "&lt;".toList ∧ htmlEscapeChar '>' = "&gt;".toList ∧
    htmlEscapeChar '&' = "&amp;".toList ∧ htmlEscapeChar '"' = "&quot;".toList ∧
    htmlEscapeChar '\'' = "&apos;".toList ∧
    (∀ c : Char, c ≠ '<' → c ≠ '>' → c ≠ '&' → c ≠ '"' → c ≠ '\'' →
      htmlEscapeChar c = [c]) := by
  refine ⟨renderToken_string bc t ht, by decide, by decide, by decide, by decide,
    by decide, ?_⟩
  intro c h1 h2 h3 h4 h5
  simp [htmlEscapeChar, h1, h2, h3, h4, h5]

/-- C6 witness: the amended theorem applied to a STRING token whose
lexeme is `<`. -/
theorem string_token_chars_html_escaped_witness :
    (renderToken 0 ⟨Kind.STRING, ['<']⟩).2 =
      concatMapChars (fun c => printSpanTags (kindColor Kind.STRING) (htmlEscapeChar c))
        ['<'] ∧
    htmlEscapeChar '<' = "&lt;".toList ∧ htmlEscapeChar '>' = "&gt;".toList ∧
    htmlEscapeChar '&' = "&amp;".toList ∧ htmlEscapeChar '"' = "&quot;".toList ∧
    htmlEscapeChar '\'' = "&apos;".toList ∧
    (∀ c : Char, c ≠ '<' → c ≠ '>' → c ≠ '&' → c ≠ '"' → c ≠ '\'' →
      htmlEscapeChar c = [c]) :=
  string_token_chars_html_escaped 0 ⟨Kind.STRING, ['<']⟩ rfl

/-- C7: inside a string region, a backslash followed by `u` with at least
five characters after the backslash is consumed as exactly one ESCAPE
token (after flushing the pending STRING fragment) whose lexeme
`s[i:i+6]` has length 6, regardless of what the four characters after
the `u` are. -/
theorem unicode_escape_token_length_six (f : Nat) (s : List Char) (i start : Nat)
    (h1 : i < s.length) (h2 : i+1 < s.length)
    (hb : s[i] = '\\') (hu : s[i+1] = 'u') (h6 : i+6 ≤ s.length) :
    stringLoop (f+1) s i start =
      (fun p => (⟨Kind.STRING, goSlice s start i⟩ ::
                 ⟨Kind.ESCAPE, goSlice s i (i+6)⟩ :: p.1, p.2)) <$>
        stringLoop f s (i+6) (i+6) ∧
    (goSlice s i (i+6)).length = 6 := by
  constructor
  · rw [stringLoop, dif_pos h1, if_neg (by rw [hb]; decide), if_pos hb, dif_pos h2,
        if_pos hu, if_pos h6]
  · exact goSlice_length s i 6 h6

/-- C7 witness: the Unicode-escape step applied to the six characters
backslash, u, A, B, C, D. -/
theorem unicode_escape_token_length_six_witness :
    stringLoop 6 ['\\','u','A','B','C','D'] 0 0 =
      (fun p => (⟨Kind.STRING, goSlice ['\\','u','A','B','C','D'] 0 0⟩ ::
                 ⟨Kind.ESCAPE, goSlice ['\\','u','A','B','C','D'] 0 6⟩ :: p.1, p.2)) <$>
        stringLoop 5 ['\\','u','A','B','C','D'] 6 6 ∧
    (goSlice ['\\','u','A','B','C','D'] 0 6).length = 6 :=
  unicode_escape_token_length_six 5 ['\\','u','A','B','C','D'] 0 0 (by decide) (by decide)
    (by decide) (by decide) (by decide)

/-- C8: indentation at a non-positive depth emits nothing (the Go
counting loop runs zero times); a RIGHT_BRACE token whose preceding
tokens contain no more LEFT_BRACEs than RIGHT_BRACEs drives the depth
counter below zero; and rendering a RIGHT_BRACE at a non-positive depth
emits only the newline, the colored lexeme and the newline, with zero
indentation characters. -/
theorem negative_depth_indent_empty :
    (∀ d : Int, d ≤ 0 → printIndent d = []) ∧
    (∀ (pre : List Token) (t : Token), t.kind = Kind.RIGHT_BRACE →
      countKind Kind.LEFT_BRACE pre ≤ countKind Kind.RIGHT_BRACE pre →
      depthAfter (pre ++ [t]) < 0) ∧
    (∀ (d : Int) (t : Token), t.kind = Kind.RIGHT_BRACE → d ≤ 0 →
      (renderToken d t).2 =
        ['\n'] ++ printSpanTags (kindColor Kind.RIGHT_BRACE) t.lexeme ++ ['\n']) := by
  refine ⟨printIndent_nonpos, ?_, ?_⟩
  · intro pre t ht hle
    unfold depthAfter
    rw [depthAfter_foldl, countKind_append, countKind_append]
    have hL : countKind Kind.LEFT_BRACE [t] = 0 := by simp [countKind, ht]
    have hR : countKind Kind.RIGHT_BRACE [t] = 1 := by simp [countKind, ht]
    rw [hL, hR]
    push_cast
    omega
  · intro d t ht hd
    have e1 : printIndent (d - 1) = [] := printIndent_nonpos _ (by omega)
    simp [renderToken, ht, e1]

/-- C8 witness: indentation at depth −1 is empty, and a lone RIGHT_BRACE
token drives the depth to −1. -/
theorem negative_depth_indent_empty_witness :
    printIndent (-1) = [] ∧ depthAfter [⟨Kind.RIGHT_BRACE, ['}']⟩] < 0 := by
  constructor
  · exact negative_depth_indent_empty.1 (-1) (by omega)
  · have h0 := negative_depth_indent_empty.2.1 [] ⟨Kind.RIGHT_BRACE, ['}']⟩ rfl (by decide)
    simpa using h0

/-- C9: scanning `[1,2,3]` yields three NUMBER tokens separated by
ARRAY_COMMA tokens between brackets, and rendering them produces the
whole array on a single line — the output contains no newline, and every
ARRAY_COMMA is rendered as its colored span followed by exactly one
space and no indentation, for every token of that kind. -/
theorem array_pipeline_single_line :
    scan ['[','1',',','2',',','3',']'] =
      some [⟨Kind.LEFT_BRACKET, ['[']⟩, ⟨Kind.NUMBER, ['1']⟩, ⟨Kind.ARRAY_COMMA, [',']⟩,
            ⟨Kind.NUMBER, ['2']⟩, ⟨Kind.ARRAY_COMMA, [',']⟩, ⟨Kind.NUMBER, ['3']⟩,
            ⟨Kind.RIGHT_BRACKET, [']']⟩] ∧
    colorizedPrint [⟨Kind.LEFT_BRACKET, ['[']⟩, ⟨Kind.NUMBER, ['1']⟩,
            ⟨Kind.ARRAY_COMMA, [',']⟩, ⟨Kind.NUMBER, ['2']⟩, ⟨Kind.ARRAY_COMMA, [',']⟩,
            ⟨Kind.NUMBER, ['3']⟩, ⟨Kind.RIGHT_BRACKET, [']']⟩] =
      "<span style=\"font-family:monospace; white-space:pre\">".toList ++
        (printSpanTags (kindColor Kind.LEFT_BRACKET) ['['] ++
         printSpanTags (kindColor Kind.NUMBER) ['1'] ++
         printSpanTags (kindColor Kind.ARRAY_COMMA) [','] ++ [' '] ++
         printSpanTags (kindColor Kind.NUMBER) ['2'] ++
         printSpanTags (kindColor Kind.ARRAY_COMMA) [','] ++ [' '] ++
         printSpanTags (kindColor Kind.NUMBER) ['3'] ++
         printSpanTags (kindColor Kind.RIGHT_BRACKET) [']'] ++
         "</span>".toList) ∧
    '\n' ∉ colorizedPrint [⟨Kind.LEFT_BRACKET, ['[']⟩, ⟨Kind.NUMBER, ['1']⟩,
            ⟨Kind.ARRAY_COMMA, [',']⟩, ⟨Kind.NUMBER, ['2']⟩, ⟨Kind.ARRAY_COMMA, [',']⟩,
            ⟨Kind.NUMBER, ['3']⟩, ⟨Kind.RIGHT_BRACKET, [']']⟩] ∧
    ∀ (bc : Int) (lex : List Char),
      renderToken bc ⟨Kind.ARRAY_COMMA, lex⟩ =
        (bc, printSpanTags (kindColor Kind.ARRAY_COMMA) lex ++ [' ']) :=
  ⟨by decide, by decide, by decide, fun bc lex => rfl⟩

/-- C10: scanning the empty input yields the empty token sequence, and
rendering the empty token sequence emits exactly the opening monospace
whitespace-preserving container span immediately followed by the closing
span, with nothing in between. -/
theorem empty_input_pipeline :
    scan [] = some [] ∧
    colorizedPrint [] =
      "<span style=\"font-family:monospace; white-space:pre\"></span>".toList :=
  ⟨rfl, rfl⟩
